import Mathlib

/-
Verification of rayIntersector.py: a scene-graph ray/closest-hit query node
plus a batch command wrapper.

Shallow embedding notes.
* Maya double values (matrix entries, points, distances) are modelled over
  an arbitrary linearly ordered ring K: the ray caster only subtracts,
  multiplies, adds and compares coordinates, so its logic is identical for
  ℝ, ℚ (the idealized doubles) and ℤ (used to evaluate witnesses, since ℚ
  arithmetic does not reduce in the kernel).  The node's own attribute
  plumbing is stated at K = ℚ, and the one place real arithmetic is
  essential (vector normalization, which divides by a square root) is
  modelled over ℝ.
* An MDagPath is modelled as the list of nodes on the path, deepest node
  first (so MDagPath.node() is List.head, MDagPath.pop(1) is List.tail,
  and MDagPath.length() is List.length).  MDagPath.pop mutates the path in
  place, so isVisible is modelled as returning the pair
  (result, final state of the path object it was handed).
* The host mesh API (MFnMesh(path).closestIntersection(...) for the query's
  fixed ray) is abstracted as an oracle  mesh : DagPath → MeshResult  giving,
  for the path the code hands to MFnMesh, either an exception, no hit, or a
  hit point; MFnMesh construction itself is abstracted as an oracle
  fnMeshOk : DagPath → Bool (the code does not guard it, so its failure
  escapes traceRay).
* The code compares Euclidean distances (hitPoint - raySource).length();
  the model compares squared Euclidean distances, which orders and ties
  exactly the same pairs since Real.sqrt is strictly monotone on
  nonnegatives (theorem distSq_lt_iff_dist_lt below).
-/

set_option autoImplicit false

namespace RayInt

/-- A scene point / vector with coordinates in K (Maya doubles). -/
abbrev Point (K : Type) := K × K × K

/-- One DAG node as seen by isVisible: whether it has a "visibility" plug and
its value, and whether it has an "intermediateObject" plug and its value. -/
structure Node where
  hasVisibility : Bool
  visibility : Bool
  hasIntermediate : Bool
  intermediate : Bool
deriving DecidableEq

/-- An MDagPath, deepest node first (head = dagPath.node(), tail = result of
dagPath.pop(1), length = dagPath.length()). -/
abbrev DagPath := List Node

/-- RayIntersector.isVisible (lines 161-190).  The source walks the path it
was GIVEN, mutating it with dagPath.pop(1); we return the pair
(returned bool, final state of the caller's path object).  The loop checks
the deepest node's visibility plug, then its intermediateObject plug, then
breaks (returning True) once length() <= 1, else pops and repeats. -/
def isVisible : DagPath → Bool × DagPath
  | [] => (true, [])
  | n :: rest =>
    if n.hasVisibility && !n.visibility then (false, n :: rest)
    else if n.hasIntermediate && n.intermediate then (false, n :: rest)
    else
      match rest with
      | [] => (true, [n])
      | _ :: _ => isVisible rest

/-- Outcome of the fnMesh.closestIntersection call made inside the inner
try block of traceRay (line 144): it raises, returns no hit, or returns a
hit point. -/
inductive MeshResult (K : Type)
  | fail
  | miss
  | hit (p : Point K)
deriving DecidableEq

/-- Squared Euclidean distance; the code computes
(hitPoint - raySource).length() and only ever compares these values, and
squaring preserves every comparison of nonnegative lengths. -/
def distSq {K : Type} [LinearOrderedRing K] (p q : Point K) : K :=
  (p.1 - q.1) * (p.1 - q.1) + (p.2.1 - q.2.1) * (p.2.1 - q.2.1) +
    (p.2.2 - q.2.2) * (p.2.2 - q.2.2)

/-- The while loop of RayIntersector.traceRay (lines 136-157); `best` holds
the pair (intersectionPoint, closestDistance), none standing for the initial
(None, inf) state.  For each mesh path: if isVisible (which pops the path)
returns true, MFnMesh is built on the POPPED path (an unguarded host call,
oracle f; failure escapes the loop) and closestIntersection is run on it
(oracle mesh; its exception is swallowed by the inner try).  A hit strictly
closer than the best so far replaces it. -/
def traceGo {K : Type} [LinearOrderedRing K] (f : DagPath → Bool)
    (mesh : DagPath → MeshResult K) (raySource : Point K) :
    List DagPath → Option (Point K × K) → Except Unit (Option (Point K × K))
  | [], best => Except.ok best
  | p :: rest, best =>
    if (isVisible p).1 then
      if f (isVisible p).2 then
        match mesh (isVisible p).2 with
        | MeshResult.fail => traceGo f mesh raySource rest best
        | MeshResult.miss => traceGo f mesh raySource rest best
        | MeshResult.hit q =>
          match best with
          | none => traceGo f mesh raySource rest (some (q, distSq q raySource))
          | some b =>
            if distSq q raySource < b.2 then
              traceGo f mesh raySource rest (some (q, distSq q raySource))
            else traceGo f mesh raySource rest best
      else Except.error ()
    else traceGo f mesh raySource rest best

/-- RayIntersector.traceRay (lines 115-159): iterate the scene's mesh DAG
paths and return the closest intersection point (None when nothing was hit).
`direction` only parameterizes the mesh oracle's ray, never arithmetic here. -/
def traceRay {K : Type} [LinearOrderedRing K] (f : DagPath → Bool)
    (mesh : DagPath → MeshResult K) (scene : List DagPath) (origin : Point K)
    (direction : ℝ × ℝ × ℝ) : Except Unit (Option (Point K)) :=
  (traceGo f mesh origin scene none).map (fun b => b.map Prod.fst)

/-- The hit the traceRay loop body computes for one scene object: some
(hitPoint, its squared distance to the ray source) exactly when the object
passes isVisible, the MFnMesh construction succeeds, and closestIntersection
returns a hit. -/
def objHit {K : Type} [LinearOrderedRing K] (f : DagPath → Bool)
    (mesh : DagPath → MeshResult K) (raySource : Point K) (p : DagPath) :
    Option (Point K × K) :=
  if (isVisible p).1 then
    if f (isVisible p).2 then
      match mesh (isVisible p).2 with
      | MeshResult.hit q => some (q, distSq q raySource)
      | _ => none
    else none
  else none

/-- Pure replay of the best-hit accumulation of the traceRay loop over the
per-object hit results. -/
def runBest {K : Type} [LinearOrderedRing K] :
    List (Option (Point K × K)) → Option (Point K × K) → Option (Point K × K)
  | [], best => best
  | none :: t, best => runBest t best
  | some h :: t, best =>
    match best with
    | none => runBest t (some h)
    | some b => if h.2 < b.2 then runBest t (some h) else runBest t best

/-- The input 4x4 world matrix (MMatrix), entries as idealized doubles. -/
abbrev Mat4 := Fin 4 → Fin 4 → ℚ

/-- compute's transformPosition (lines 71-73): the translation row. -/
def transformPosition (M : Mat4) : Point ℚ := (M 3 0, M 3 1, M 3 2)

/-- Basis row i of the matrix, as a real 3-vector. -/
def rowR (M : Mat4) (i : Fin 4) : ℝ × ℝ × ℝ :=
  ((M i 0 : ℝ), (M i 1 : ℝ), (M i 2 : ℝ))

/-- Negation of a 3-vector. -/
def negR (v : ℝ × ℝ × ℝ) : ℝ × ℝ × ℝ := (-v.1, -v.2.1, -v.2.2)

/-- MVector.normal(): the vector divided by its Euclidean length.  For the
zero vector Lean's division by zero makes this the zero vector; the spec
leaves that degenerate input undefined and no theorem relies on it. -/
noncomputable def norm3 (v : ℝ × ℝ × ℝ) : ℝ :=
  Real.sqrt (v.1 * v.1 + v.2.1 * v.2.1 + v.2.2 * v.2.2)

/-- Normalization step used by every branch of the direction resolution. -/
noncomputable def normal (v : ℝ × ℝ × ℝ) : ℝ × ℝ × ℝ :=
  (v.1 / norm3 v, v.2.1 / norm3 v, v.2.2 / norm3 v)

/-- compute's transformDirection (lines 75-99): the basis row selected by
rayAxis (asShort, so any integer can arrive), negated for the three negative
axes, normalized; every value other than 0..4 takes the final else branch. -/
noncomputable def transformDirection (rayAxis : ℤ) (M : Mat4) : ℝ × ℝ × ℝ :=
  if rayAxis = 0 then normal (rowR M 0)
  else if rayAxis = 1 then normal (rowR M 1)
  else if rayAxis = 2 then normal (rowR M 2)
  else if rayAxis = 3 then normal (negR (rowR M 0))
  else if rayAxis = 4 then normal (negR (rowR M 1))
  else normal (negR (rowR M 2))

/-- Modelled from the spec (§4.1): the signed basis row the chosen axis
selector designates, BEFORE normalization — "the transform's basis row
corresponding to the selected axis (row 0 for X, row 1 for Y, row 2 for Z),
negated for the three negative-axis selectors".  Spec-side description used
to state the refinement claim about transformDirection. -/
noncomputable def directionSource (rayAxis : ℤ) (M : Mat4) : ℝ × ℝ × ℝ :=
  if rayAxis = 0 then rowR M 0
  else if rayAxis = 1 then rowR M 1
  else if rayAxis = 2 then rowR M 2
  else if rayAxis = 3 then negR (rowR M 0)
  else if rayAxis = 4 then negR (rowR M 1)
  else negR (rowR M 2)

/-- Observable effect of one RayIntersector.compute evaluation on the
output plug: the value written to outputTranslate (none = the handler path
was taken and the attribute was left untouched), whether setClean ran, and
whether the top-level except printed the error. -/
structure ComputeEffect where
  written : Option (Point ℚ)
  setClean : Bool
  errorLogged : Bool
deriving DecidableEq

/-- RayIntersector.compute on the outputTranslate plug (lines 62-113).
rayCast abstracts the self.traceRay call (so a theorem quantifying over it
covers every unexpected casting failure); on ok it writes the hit point or
falls back to the transform position, then sets the plug clean; on an
exception the top-level handler logs and returns with nothing written. -/
noncomputable def compute (rayCast : Point ℚ → ℝ × ℝ × ℝ → Except Unit (Option (Point ℚ)))
    (M : Mat4) (rayAxis : ℤ) : ComputeEffect :=
  match rayCast (transformPosition M) (transformDirection rayAxis M) with
  | Except.ok (some p) => { written := some p, setClean := true, errorLogged := false }
  | Except.ok none =>
      { written := some (transformPosition M), setClean := true, errorLogged := false }
  | Except.error _ => { written := none, setClean := false, errorLogged := true }

/-- Node name chosen by the command's loop (line 253):
f"{name}_{i + 1}" if i > 0 else name. -/
def nodeName (name : String) (i : ℕ) : String :=
  if 0 < i then name ++ "_" ++ toString (i + 1) else name

/-- The creation loop of RaySceneIntersectorCommand.doIt (lines 251-259):
for each transform, create the rayIntersector node and its locator (oracle
createOk says whether the host calls of iteration i succeed; the first
failure raises out of the loop).  Returns (created node names in order,
whether an exception was raised). -/
def createLoop (createOk : ℕ → Bool) (name : String) :
    ℕ → List String → List String × Bool
  | _, [] => ([], false)
  | i, _t :: rest =>
    if createOk i then
      let n := nodeName name i
      let r := createLoop createOk name (i + 1) rest
      (n :: ("locator_" ++ n) :: r.1, r.2)
    else ([], true)

/-- Observable outcome of one RaySceneIntersectorCommand.doIt run. -/
structure CmdOutcome where
  finalSelection : List String
  created : List String
  raised : Bool
  errorDisplayed : Bool
deriving DecidableEq

/-- RaySceneIntersectorCommand.doIt (lines 203-278).  The original selection
is captured first; the body creates one binding per transform; any exception
is reported with displayError and re-raised; the finally block always
reselects the captured selection (mc.select(original) when it was nonempty,
mc.select(clear) — i.e. the empty selection — otherwise), so the final
selection is the original one on success and on failure alike. -/
def doIt (origSel : List String) (transforms : List String) (name : String)
    (createOk : ℕ → Bool) : CmdOutcome :=
  let r := createLoop createOk name 0 transforms
  { finalSelection := origSel
    created := r.1
    raised := r.2
    errorDisplayed := r.2 }

/-- Bindings (node, locator names) the loop creates for iterations
i, i+1, ..., i+k-1 when they all succeed. -/
def bindings (name : String) : ℕ → ℕ → List String
  | _, 0 => []
  | i, k + 1 =>
    nodeName name i :: ("locator_" ++ nodeName name i) :: bindings name (i + 1) k

/- Concrete fixtures used by the witnesses. -/

/-- A node with both plugs present, visible, not intermediate. -/
def visNode : Node :=
  { hasVisibility := true, visibility := true, hasIntermediate := true, intermediate := false }

/-- A node whose visibility plug is off. -/
def hiddenNode : Node :=
  { hasVisibility := true, visibility := false, hasIntermediate := false, intermediate := false }

/-- A node with neither plug (treated as visible by the walk). -/
def bareNode : Node :=
  { hasVisibility := false, visibility := false, hasIntermediate := false, intermediate := false }

/-- Mesh oracle for the C1 witness scene: the path [visNode] hits at
(3,0,0), the path [bareNode] hits nearer, at (1,0,0). -/
def meshA : DagPath → MeshResult ℤ := fun p =>
  if p = [visNode] then MeshResult.hit (3, 0, 0)
  else if p = [bareNode] then MeshResult.hit (1, 0, 0)
  else MeshResult.miss

/-- Mesh oracle that always raises from closestIntersection. -/
def meshF : DagPath → MeshResult ℤ := fun _ => MeshResult.fail

/-- Mesh oracle over ℚ that never hits, a concrete fixture. -/
def meshMissQ : DagPath → MeshResult ℚ := fun _ => MeshResult.miss

/-- The all-zero input matrix, a concrete fixture. -/
def mZero : Mat4 := fun _ _ => 0

/-- The identity input matrix, a concrete fixture. -/
def mId : Mat4 := fun i j => if i = j then 1 else 0

end RayInt

namespace RayInt

/- Helper lemmas. -/

/-- Comparing squared distances is the same as comparing the Euclidean
distances the source compares: Real.sqrt is strictly monotone on the
nonnegative squared values, so the model's strict-less test (and therefore
its tie behaviour) agrees with the code's. -/
theorem distSq_lt_iff_dist_lt (p q r : Point ℝ) :
    Real.sqrt (distSq p q) < Real.sqrt (distSq p r) ↔ distSq p q < distSq p r := by
  have hq : 0 ≤ distSq p q :=
    add_nonneg (add_nonneg (mul_self_nonneg _) (mul_self_nonneg _)) (mul_self_nonneg _)
  have hr : 0 ≤ distSq p r :=
    add_nonneg (add_nonneg (mul_self_nonneg _) (mul_self_nonneg _)) (mul_self_nonneg _)
  constructor
  · intro h
    by_contra hle
    push_neg at hle
    exact absurd (Real.sqrt_le_sqrt hle) (not_le.mpr h)
  · intro h
    exact Real.sqrt_lt_sqrt hq h

/-- A nonzero vector normalizes to a unit vector. -/
theorem norm3_normal (v : ℝ × ℝ × ℝ) (hv : v ≠ (0, 0, 0)) : norm3 (normal v) = 1 := by
  obtain ⟨x, y, z⟩ := v
  have hxyz : ¬(x = 0 ∧ y = 0 ∧ z = 0) := by
    intro hc
    exact hv (by simp [hc.1, hc.2.1, hc.2.2])
  have hs : 0 < x * x + y * y + z * z := by
    rcases not_and_or.mp hxyz with hx | hyz
    · nlinarith [mul_self_nonneg y, mul_self_nonneg z, mul_self_pos.mpr hx]
    · rcases not_and_or.mp hyz with hy | hz
      · nlinarith [mul_self_nonneg x, mul_self_nonneg z, mul_self_pos.mpr hy]
      · nlinarith [mul_self_nonneg x, mul_self_nonneg y, mul_self_pos.mpr hz]
  have hnn : Real.sqrt (x * x + y * y + z * z) ≠ 0 :=
    ne_of_gt (Real.sqrt_pos.mpr hs)
  have hsq : Real.sqrt (x * x + y * y + z * z) * Real.sqrt (x * x + y * y + z * z)
      = x * x + y * y + z * z := Real.mul_self_sqrt hs.le
  have key : (x / Real.sqrt (x * x + y * y + z * z)) * (x / Real.sqrt (x * x + y * y + z * z))
      + (y / Real.sqrt (x * x + y * y + z * z)) * (y / Real.sqrt (x * x + y * y + z * z))
      + (z / Real.sqrt (x * x + y * y + z * z)) * (z / Real.sqrt (x * x + y * y + z * z))
      = 1 := by
    field_simp
  have e : norm3 (normal (x, y, z))
      = Real.sqrt ((x / Real.sqrt (x * x + y * y + z * z)) * (x / Real.sqrt (x * x + y * y + z * z))
        + (y / Real.sqrt (x * x + y * y + z * z)) * (y / Real.sqrt (x * x + y * y + z * z))
        + (z / Real.sqrt (x * x + y * y + z * z)) * (z / Real.sqrt (x * x + y * y + z * z))) := rfl
  rw [e, key, Real.sqrt_one]

/- Claim theorems. -/

/-- C2 (code_bug evidence): isVisible does NOT return the DAG path unchanged.
On the two-node path [shape, rootTransform] (both fully visible) it answers
true but leaves the caller's MDagPath popped down to the one-node root path,
which is what traceRay then hands to MFnMesh. -/
theorem isVisible_pops_path :
    (isVisible [visNode, visNode]).1 = true ∧
    (isVisible [visNode, visNode]).2 = [visNode] ∧
    (isVisible [visNode, visNode]).2 ≠ [visNode, visNode] := by decide

/-- C3: one compute evaluation on the output plug has exactly three possible
effects, whatever the ray cast does: a full write of a returned hit point, a
full write of the fallback transform position, or — when the cast raises —
no write at all (the plug is left dirty) with the error logged.  No partial
or corrupt output is possible. -/
theorem compute_effect_cases
    (rayCast : Point ℚ → ℝ × ℝ × ℝ → Except Unit (Option (Point ℚ)))
    (M : Mat4) (a : ℤ) :
    (∃ p, rayCast (transformPosition M) (transformDirection a M) = Except.ok (some p) ∧
      compute rayCast M a = ⟨some p, true, false⟩) ∨
    (rayCast (transformPosition M) (transformDirection a M) = Except.ok none ∧
      compute rayCast M a = ⟨some (transformPosition M), true, false⟩) ∨
    (∃ e, rayCast (transformPosition M) (transformDirection a M) = Except.error e ∧
      compute rayCast M a = ⟨none, false, true⟩) := by
  rcases h : rayCast (transformPosition M) (transformDirection a M) with e | r
  · exact Or.inr (Or.inr ⟨e, rfl, by simp [compute, h]⟩)
  · rcases r with _ | p
    · exact Or.inr (Or.inl ⟨rfl, by simp [compute, h]⟩)
    · exact Or.inl ⟨p, rfl, by simp [compute, h]⟩

/-- C4: whenever traceRay reports no intersection, compute writes exactly the
transform's translation component (M[3][0], M[3][1], M[3][2]) to the output
attribute. -/
theorem compute_fallback_translation (f : DagPath → Bool)
    (mesh : DagPath → MeshResult ℚ) (scene : List DagPath) (M : Mat4) (a : ℤ)
    (h : traceRay f mesh scene (transformPosition M) (transformDirection a M)
      = Except.ok none) :
    compute (traceRay f mesh scene) M a = ⟨some (transformPosition M), true, false⟩ ∧
    transformPosition M = (M 3 0, M 3 1, M 3 2) := by
  exact ⟨by simp [compute, h], rfl⟩

/-- Witness for C4 at the empty scene and the zero matrix. -/
theorem compute_fallback_translation_witness :
    traceRay (fun _ => true) meshMissQ []
      (transformPosition mZero) (transformDirection 5 mZero) = Except.ok none ∧
    (compute (traceRay (fun _ => true) meshMissQ []) mZero 5
        = ⟨some (transformPosition mZero), true, false⟩ ∧
      transformPosition mZero = (mZero 3 0, mZero 3 1, mZero 3 2)) :=
  ⟨rfl, compute_fallback_translation (fun _ => true) meshMissQ [] mZero 5 rfl⟩

/-- C5: the resolved ray origin is the translation row of the matrix, the
resolved direction is the normalization of the signed basis row the axis
selector designates (row 0, 1, 2 for X, Y, Z, negated for the three negative
selectors), and for a non-degenerate selected row it is a unit vector. -/
theorem resolveRay_spec (M : Mat4) (a : ℤ) :
    transformPosition M = (M 3 0, M 3 1, M 3 2) ∧
    transformDirection a M = normal (directionSource a M) ∧
    (directionSource a M ≠ ((0 : ℝ), (0 : ℝ), (0 : ℝ)) →
      norm3 (transformDirection a M) = 1) := by
  have hd : transformDirection a M = normal (directionSource a M) := by
    unfold transformDirection directionSource
    split_ifs <;> rfl
  refine ⟨rfl, hd, fun hne => ?_⟩
  rw [hd]
  exact norm3_normal _ hne

/-- Witness for C5: the identity matrix and the X axis selector give the unit
vector (1,0,0). -/
theorem resolveRay_spec_witness :
    directionSource 0 mId ≠ ((0 : ℝ), (0 : ℝ), (0 : ℝ)) ∧
    norm3 (transformDirection 0 mId) = 1 := by
  have hne : directionSource 0 mId ≠ ((0 : ℝ), (0 : ℝ), (0 : ℝ)) := by
    simp [directionSource, rowR, mId]
  exact ⟨hne, (resolveRay_spec mId 0).2.2 hne⟩

/-- C10: every rayAxis value outside 0..4 — not only the declared default
5 — resolves the direction to the negated normalized basis row 2, exactly as
the -Z selector does. -/
theorem axis_out_of_range (a : ℤ) (M : Mat4)
    (h0 : a ≠ 0) (h1 : a ≠ 1) (h2 : a ≠ 2) (h3 : a ≠ 3) (h4 : a ≠ 4) :
    transformDirection a M = normal (negR (rowR M 2)) ∧
    transformDirection a M = transformDirection 5 M := by
  have e1 : transformDirection a M = normal (negR (rowR M 2)) := by
    simp [transformDirection, h0, h1, h2, h3, h4]
  have e2 : transformDirection 5 M = normal (negR (rowR M 2)) := by
    norm_num [transformDirection]
  exact ⟨e1, by rw [e1, e2]⟩

/-- Witness for C10 at the out-of-range axis value 7. -/
theorem axis_out_of_range_witness :
    (7 : ℤ) ≠ 0 ∧
    (transformDirection 7 mId = normal (negR (rowR mId 2)) ∧
      transformDirection 7 mId = transformDirection 5 mId) :=
  ⟨by decide, axis_out_of_range 7 mId (by decide) (by decide) (by decide) (by decide) (by decide)⟩

/-- C9: the first created node is named with the base name verbatim, each
later node at zero-based index i is named name_(i+1), and with base name
"ray1" and two transforms the created bindings are ray1 and ray1_2. -/
theorem command_naming (name : String) (i : ℕ) (h : 0 < i) :
    nodeName name 0 = name ∧
    nodeName name i = name ++ "_" ++ toString (i + 1) ∧
    (doIt [] ["transform1", "transform2"] "ray1" (fun _ => true)).created
      = ["ray1", "locator_ray1", "ray1_2", "locator_ray1_2"] := by
  refine ⟨rfl, ?_, rfl⟩
  simp [nodeName, h]

/-- Witness for C9 at i = 1, base name "ray1". -/
theorem command_naming_witness :
    0 < 1 ∧
    (nodeName "ray1" 0 = "ray1" ∧
      nodeName "ray1" 1 = "ray1" ++ "_" ++ toString (1 + 1) ∧
      (doIt [] ["transform1", "transform2"] "ray1" (fun _ => true)).created
        = ["ray1", "locator_ray1", "ray1_2", "locator_ray1_2"]) :=
  ⟨by decide, command_naming "ray1" 1 (by decide)⟩

end RayInt

namespace RayInt

/-- A path containing a node with its visibility plug off, or a node flagged
intermediate, fails the isVisible walk. -/
theorem isVisible_false_of_bad (p : DagPath)
    (h : (∃ n ∈ p, n.hasVisibility = true ∧ n.visibility = false) ∨
         (∃ n ∈ p, n.hasIntermediate = true ∧ n.intermediate = true)) :
    (isVisible p).1 = false := by
  induction p with
  | nil =>
    rcases h with ⟨n, hn, _⟩ | ⟨n, hn, _⟩ <;> simp at hn
  | cons n rest ih =>
    by_cases h1 : (n.hasVisibility && !n.visibility) = true
    · simp [isVisible, h1]
    · by_cases h2 : (n.hasIntermediate && n.intermediate) = true
      · simp [isVisible, h1, h2]
      · have hrest : (∃ m ∈ rest, m.hasVisibility = true ∧ m.visibility = false) ∨
            (∃ m ∈ rest, m.hasIntermediate = true ∧ m.intermediate = true) := by
          rcases h with ⟨m, hm, hv⟩ | ⟨m, hm, hv⟩
          · rcases List.mem_cons.mp hm with rfl | hm2
            · exact absurd (by simp [hv.1, hv.2]) h1
            · exact Or.inl ⟨m, hm2, hv⟩
          · rcases List.mem_cons.mp hm with rfl | hm2
            · exact absurd (by simp [hv.1, hv.2]) h2
            · exact Or.inr ⟨m, hm2, hv⟩
        cases rest with
        | nil =>
          rcases hrest with ⟨m, hm, _⟩ | ⟨m, hm, _⟩ <;> simp at hm
        | cons r rs =>
          have hr := ih hrest
          simpa [isVisible, h1, h2] using hr

/-- One-step congruence for the traceRay loop: processing the same head over
two continuations that agree pointwise gives equal results. -/
theorem traceGo_congr {K : Type} [LinearOrderedRing K] (f : DagPath → Bool)
    (mesh : DagPath → MeshResult K) (o : Point K) (q : DagPath) (L1 L2 : List DagPath)
    (h : ∀ b, traceGo f mesh o L1 b = traceGo f mesh o L2 b) :
    ∀ b, traceGo f mesh o (q :: L1) b = traceGo f mesh o (q :: L2) b := by
  intro b
  by_cases hv : (isVisible q).1 = true
  · by_cases hf : f (isVisible q).2 = true
    · rcases hm : mesh (isVisible q).2 with _ | _ | pt
      · simp [traceGo, hv, hf, hm, h]
      · simp [traceGo, hv, hf, hm, h]
      · rcases b with _ | bb
        · simp [traceGo, hv, hf, hm, h]
        · by_cases hd : distSq pt o < bb.2
          · simp [traceGo, hv, hf, hm, hd, h]
          · simp [traceGo, hv, hf, hm, hd, h]
    · simp [traceGo, hv, hf]
  · have hv2 : (isVisible q).1 = false := by
      cases hvv : (isVisible q).1
      · rfl
      · exact absurd hvv hv
    simp [traceGo, hv2, h]

/-- If one object is skipped by the loop body wherever it appears, removing
it from the traversal does not change the result. -/
theorem traceGo_append {K : Type} [LinearOrderedRing K] (f : DagPath → Bool)
    (mesh : DagPath → MeshResult K) (o : Point K) (p : DagPath)
    (hp : ∀ rest b, traceGo f mesh o (p :: rest) b = traceGo f mesh o rest b) :
    ∀ (pre post : List DagPath) (b : Option (Point K × K)),
      traceGo f mesh o (pre ++ p :: post) b = traceGo f mesh o (pre ++ post) b := by
  intro pre
  induction pre with
  | nil => intro post b; exact hp post b
  | cons q pre2 ih =>
    intro post b
    have hc := traceGo_congr f mesh o q (pre2 ++ p :: post) (pre2 ++ post)
      (fun b2 => ih post b2) b
    simpa using hc

/-- When every MFnMesh construction succeeds, traceGo cannot raise. -/
theorem traceGo_no_error {K : Type} [LinearOrderedRing K] (f : DagPath → Bool)
    (mesh : DagPath → MeshResult K) (o : Point K) (hall : ∀ q, f q = true) :
    ∀ (scene : List DagPath) (best : Option (Point K × K)),
      ∃ r, traceGo f mesh o scene best = Except.ok r := by
  intro scene
  induction scene with
  | nil => intro best; exact ⟨best, rfl⟩
  | cons p rest ih =>
    intro best
    by_cases hv : (isVisible p).1 = true
    · rcases hm : mesh (isVisible p).2 with _ | _ | pt
      · obtain ⟨r, hr⟩ := ih best
        exact ⟨r, by simp [traceGo, hv, hall, hm, hr]⟩
      · obtain ⟨r, hr⟩ := ih best
        exact ⟨r, by simp [traceGo, hv, hall, hm, hr]⟩
      · rcases best with _ | bb
        · obtain ⟨r, hr⟩ := ih (some (pt, distSq pt o))
          exact ⟨r, by simp [traceGo, hv, hall, hm, hr]⟩
        · by_cases hd : distSq pt o < bb.2
          · obtain ⟨r, hr⟩ := ih (some (pt, distSq pt o))
            exact ⟨r, by simp [traceGo, hv, hall, hm, hd, hr]⟩
          · obtain ⟨r, hr⟩ := ih (some bb)
            exact ⟨r, by simp [traceGo, hv, hall, hm, hd, hr]⟩
    · have hv2 : (isVisible p).1 = false := by
        cases hvv : (isVisible p).1
        · rfl
        · exact absurd hvv hv
      obtain ⟨r, hr⟩ := ih best
      exact ⟨r, by simp [traceGo, hv2, hr]⟩

/-- C6: an object whose own visibility flag is off, or with an invisible
ancestor, or flagged intermediate, is skipped by traceRay: the traversal
returns exactly what it returns without that object, however close its
geometry may be. -/
theorem invisible_never_hit {K : Type} [LinearOrderedRing K] (f : DagPath → Bool)
    (mesh : DagPath → MeshResult K) (pre post : List DagPath) (p : DagPath)
    (o : Point K) (dir : ℝ × ℝ × ℝ)
    (h : (∃ n ∈ p, n.hasVisibility = true ∧ n.visibility = false) ∨
         (∃ n ∈ p, n.hasIntermediate = true ∧ n.intermediate = true)) :
    traceRay f mesh (pre ++ p :: post) o dir = traceRay f mesh (pre ++ post) o dir := by
  have hv := isVisible_false_of_bad p h
  unfold traceRay
  rw [traceGo_append f mesh o p (fun rest b => by simp [traceGo, hv]) pre post]

/-- Witness for C6: a hidden one-node path sits in front of a visible object
whose mesh is hit; the result is as if the hidden object were absent. -/
theorem invisible_never_hit_witness :
    ((∃ n ∈ [hiddenNode], n.hasVisibility = true ∧ n.visibility = false) ∨
      (∃ n ∈ [hiddenNode], n.hasIntermediate = true ∧ n.intermediate = true)) ∧
    traceRay (fun _ => true) meshA ([] ++ [hiddenNode] :: [[visNode]]) ((0 : ℤ), 0, 0) (0, 0, 0)
      = traceRay (fun _ => true) meshA ([] ++ [[visNode]]) ((0 : ℤ), 0, 0) (0, 0, 0) :=
  ⟨by decide,
    invisible_never_hit (fun _ => true) meshA [] [[visNode]] [hiddenNode]
      ((0 : ℤ), 0, 0) (0, 0, 0) (by decide)⟩

/-- C7: a closestIntersection failure on one object is swallowed at that
object: the traversal result is exactly that of the traversal without it,
and (as long as the unguarded MFnMesh constructions succeed) traceRay never
propagates an error, whatever the mesh queries do. -/
theorem meshFailure_contained {K : Type} [LinearOrderedRing K] (f : DagPath → Bool)
    (mesh : DagPath → MeshResult K) (pre post : List DagPath) (p : DagPath)
    (o : Point K) (dir : ℝ × ℝ × ℝ)
    (hok : f (isVisible p).2 = true)
    (hfail : mesh (isVisible p).2 = MeshResult.fail) :
    traceRay f mesh (pre ++ p :: post) o dir = traceRay f mesh (pre ++ post) o dir ∧
    (∀ scene : List DagPath, (∀ q, f q = true) →
      ∃ r, traceRay f mesh scene o dir = Except.ok r) := by
  constructor
  · have hp : ∀ rest b, traceGo f mesh o (p :: rest) b = traceGo f mesh o rest b := by
      intro rest b
      by_cases hv : (isVisible p).1 = true
      · simp [traceGo, hv, hok, hfail]
      · have hv2 : (isVisible p).1 = false := by
          cases hvv : (isVisible p).1
          · rfl
          · exact absurd hvv hv
        simp [traceGo, hv2]
    unfold traceRay
    rw [traceGo_append f mesh o p hp pre post]
  · intro scene hall
    obtain ⟨r, hr⟩ := traceGo_no_error f mesh o hall scene none
    exact ⟨r.map Prod.fst, by simp [traceRay, hr, Except.map]⟩

/-- Witness for C7: a failing mesh in front of a hit mesh is skipped and no
error escapes. -/
theorem meshFailure_contained_witness :
    (fun _ => true : DagPath → Bool) (isVisible [bareNode]).2 = true ∧
    meshF (isVisible [bareNode]).2 = MeshResult.fail ∧
    (traceRay (fun _ => true) meshF ([[visNode]] ++ [bareNode] :: []) ((0 : ℤ), 0, 0) (0, 0, 0)
        = traceRay (fun _ => true) meshF ([[visNode]] ++ []) ((0 : ℤ), 0, 0) (0, 0, 0) ∧
      (∀ scene : List DagPath, (∀ q, (fun _ => true : DagPath → Bool) q = true) →
        ∃ r, traceRay (fun _ => true) meshF scene ((0 : ℤ), 0, 0) (0, 0, 0) = Except.ok r)) :=
  ⟨rfl, rfl,
    meshFailure_contained (fun _ => true) meshF [[visNode]] [] [bareNode]
      ((0 : ℤ), 0, 0) (0, 0, 0) rfl rfl⟩

end RayInt

namespace RayInt

/-- The creation loop builds the bindings of a prefix of the transforms, the
whole list exactly when no iteration failed. -/
theorem createLoop_prefix (createOk : ℕ → Bool) (name : String) :
    ∀ (ts : List String) (i : ℕ),
      ∃ k ≤ ts.length, (createLoop createOk name i ts).1 = bindings name i k ∧
        ((createLoop createOk name i ts).2 = false → k = ts.length) := by
  intro ts
  induction ts with
  | nil =>
    intro i
    exact ⟨0, Nat.le_refl 0, rfl, fun _ => rfl⟩
  | cons t rest ih =>
    intro i
    by_cases hc : createOk i = true
    · obtain ⟨k, hk, he, hf⟩ := ih (i + 1)
      refine ⟨k + 1, by simpa using Nat.succ_le_succ hk, ?_, ?_⟩
      · simp [createLoop, hc, bindings, he]
      · intro h2
        simp [createLoop, hc] at h2
        simpa using congrArg Nat.succ (hf h2)
    · refine ⟨0, Nat.zero_le _, ?_, ?_⟩
      · simp [createLoop, hc, bindings]
      · intro h2
        simp [createLoop, hc] at h2

/-- C8: the command's final selection is the one captured before it ran, on
success and on failure alike; an error is displayed exactly when one is
re-raised; and what remains created is the bindings of a prefix of the
transforms (the whole list when nothing failed). -/
theorem command_restores_selection (origSel transforms : List String) (name : String)
    (createOk : ℕ → Bool) :
    (doIt origSel transforms name createOk).finalSelection = origSel ∧
    (doIt origSel transforms name createOk).errorDisplayed
      = (doIt origSel transforms name createOk).raised ∧
    (∃ k ≤ transforms.length,
      (doIt origSel transforms name createOk).created = bindings name 0 k ∧
      ((doIt origSel transforms name createOk).raised = false → k = transforms.length)) := by
  obtain ⟨k, hk, he, hf⟩ := createLoop_prefix createOk name transforms 0
  exact ⟨rfl, rfl, k, hk, he, hf⟩

/-- Inversion for a successful per-object hit. -/
theorem objHit_eq_some {K : Type} [LinearOrderedRing K] (f : DagPath → Bool)
    (mesh : DagPath → MeshResult K) (o : Point K) (p : DagPath) (pr : Point K × K)
    (h : objHit f mesh o p = some pr) :
    (isVisible p).1 = true ∧ f (isVisible p).2 = true ∧
    mesh (isVisible p).2 = MeshResult.hit pr.1 ∧ pr.2 = distSq pr.1 o := by
  rcases pr with ⟨pt1, d1⟩
  cases hv : (isVisible p).1 with
  | false => simp [objHit, hv] at h
  | true =>
    cases hf : f (isVisible p).2 with
    | false => simp [objHit, hv, hf] at h
    | true =>
      rcases hm : mesh (isVisible p).2 with _ | _ | pt
      · simp [objHit, hv, hf, hm] at h
      · simp [objHit, hv, hf, hm] at h
      · simp [objHit, hv, hf, hm] at h
        obtain ⟨h1, h2⟩ := h
        subst h1
        subst h2
        exact ⟨rfl, rfl, rfl, rfl⟩

/-- On a successful traversal, the loop's result is the pure best-hit fold of
the per-object hit results. -/
theorem traceGo_ok_runBest {K : Type} [LinearOrderedRing K] (f : DagPath → Bool)
    (mesh : DagPath → MeshResult K) (o : Point K) :
    ∀ (scene : List DagPath) (best r : Option (Point K × K)),
      traceGo f mesh o scene best = Except.ok r →
      r = runBest (scene.map (objHit f mesh o)) best := by
  intro scene
  induction scene with
  | nil =>
    intro best r h
    simp [traceGo] at h
    simp [runBest, ← h]
  | cons p rest ih =>
    intro best r h
    cases hv : (isVisible p).1 with
    | false =>
      have ho : objHit f mesh o p = none := by simp [objHit, hv]
      rw [List.map_cons, ho]
      simp only [runBest]
      exact ih best r (by simpa [traceGo, hv] using h)
    | true =>
      cases hf : f (isVisible p).2 with
      | false => simp [traceGo, hv, hf] at h
      | true =>
        rcases hm : mesh (isVisible p).2 with _ | _ | pt
        · have ho : objHit f mesh o p = none := by simp [objHit, hv, hf, hm]
          rw [List.map_cons, ho]
          simp only [runBest]
          exact ih best r (by simpa [traceGo, hv, hf, hm] using h)
        · have ho : objHit f mesh o p = none := by simp [objHit, hv, hf, hm]
          rw [List.map_cons, ho]
          simp only [runBest]
          exact ih best r (by simpa [traceGo, hv, hf, hm] using h)
        · have ho : objHit f mesh o p = some (pt, distSq pt o) := by
            simp [objHit, hv, hf, hm]
          rw [List.map_cons, ho]
          rcases best with _ | bb
          · simp only [runBest]
            exact ih _ r (by simpa [traceGo, hv, hf, hm] using h)
          · by_cases hd : distSq pt o < bb.2
            · simp only [runBest, if_pos hd]
              exact ih _ r (by simpa [traceGo, hv, hf, hm, hd] using h)
            · simp only [runBest, if_neg hd]
              exact ih _ r (by simpa [traceGo, hv, hf, hm, hd] using h)

/-- Where the best-hit fold finds its answer: the list splits at the winning
entry, every earlier hit is strictly farther, every later hit no closer, and
the incoming accumulator (when it did not win) is strictly farther. -/
theorem runBest_eq_some {K : Type} [LinearOrderedRing K] :
    ∀ (hs : List (Option (Point K × K))) (b : Option (Point K × K)) (pd : Point K × K),
      runBest hs b = some pd →
      (∃ pre x post, hs = pre ++ x :: post ∧ x = some pd ∧
          (∀ y ∈ pre, ∀ q : Point K × K, y = some q → pd.2 < q.2) ∧
          (∀ y ∈ post, ∀ q : Point K × K, y = some q → pd.2 ≤ q.2) ∧
          (∀ q : Point K × K, b = some q → pd.2 < q.2)) ∨
      (b = some pd ∧ ∀ y ∈ hs, ∀ q : Point K × K, y = some q → pd.2 ≤ q.2) := by
  intro hs
  induction hs with
  | nil =>
    intro b pd h
    right
    refine ⟨by simpa [runBest] using h, ?_⟩
    intro y hy
    simp at hy
  | cons hh t ih =>
    intro b pd h
    cases hh with
    | none =>
      have h2 : runBest t b = some pd := by simpa [runBest] using h
      rcases ih b pd h2 with ⟨pre, x, post, he, hx, hpre, hpost, hb⟩ | ⟨hb, hall⟩
      · left
        refine ⟨none :: pre, x, post, by simp [he], hx, ?_, hpost, hb⟩
        intro y hy q hq
        rcases List.mem_cons.mp hy with rfl | h3
        · simp at hq
        · exact hpre y h3 q hq
      · right
        refine ⟨hb, ?_⟩
        intro y hy q hq
        rcases List.mem_cons.mp hy with rfl | h3
        · simp at hq
        · exact hall y h3 q hq
    | some h0 =>
      cases b with
      | none =>
        have h2 : runBest t (some h0) = some pd := by simpa [runBest] using h
        rcases ih (some h0) pd h2 with ⟨pre, x, post, he, hx, hpre, hpost, hb⟩ | ⟨hb, hall⟩
        · left
          refine ⟨some h0 :: pre, x, post, by simp [he], hx, ?_, hpost, ?_⟩
          · intro y hy q hq
            rcases List.mem_cons.mp hy with rfl | h3
            · cases Option.some.inj hq
              exact hb h0 rfl
            · exact hpre y h3 q hq
          · intro q hq
            simp at hq
        · left
          refine ⟨[], some h0, t, rfl, hb, by simp, hall, ?_⟩
          intro q hq
          simp at hq
      | some bb =>
        by_cases hd : h0.2 < bb.2
        · have h2 : runBest t (some h0) = some pd := by simpa [runBest, hd] using h
          rcases ih (some h0) pd h2 with ⟨pre, x, post, he, hx, hpre, hpost, hb⟩ | ⟨hb, hall⟩
          · left
            have hlt : pd.2 < h0.2 := hb h0 rfl
            refine ⟨some h0 :: pre, x, post, by simp [he], hx, ?_, hpost, ?_⟩
            · intro y hy q hq
              rcases List.mem_cons.mp hy with rfl | h3
              · cases Option.some.inj hq
                exact hlt
              · exact hpre y h3 q hq
            · intro q hq
              cases Option.some.inj hq
              exact lt_trans hlt hd
          · left
            refine ⟨[], some h0, t, rfl, hb, by simp, hall, ?_⟩
            intro q hq
            cases Option.some.inj hq
            exact (Option.some.inj hb) ▸ hd
        · have h2 : runBest t (some bb) = some pd := by simpa [runBest, hd] using h
          rcases ih (some bb) pd h2 with ⟨pre, x, post, he, hx, hpre, hpost, hb⟩ | ⟨hb, hall⟩
          · left
            have hlt : pd.2 < bb.2 := hb bb rfl
            have hle : bb.2 ≤ h0.2 := not_lt.mp hd
            refine ⟨some h0 :: pre, x, post, by simp [he], hx, ?_, hpost, ?_⟩
            · intro y hy q hq
              rcases List.mem_cons.mp hy with rfl | h3
              · cases Option.some.inj hq
                exact lt_of_lt_of_le hlt hle
              · exact hpre y h3 q hq
            · intro q hq
              cases Option.some.inj hq
              exact hlt
          · right
            refine ⟨hb, ?_⟩
            intro y hy q hq
            rcases List.mem_cons.mp hy with rfl | h3
            · cases Option.some.inj hq
              exact (Option.some.inj hb) ▸ not_lt.mp hd
            · exact hall y h3 q hq

/-- A split of a mapped list comes from a split of the original list. -/
theorem map_split {α β : Type} (g : α → β) :
    ∀ (l : List α) (pre : List β) (x : β) (post : List β),
      l.map g = pre ++ x :: post →
      ∃ l1 a l2, l = l1 ++ a :: l2 ∧ g a = x ∧ l1.map g = pre ∧ l2.map g = post := by
  intro l
  induction l with
  | nil =>
    intro pre x post h
    cases pre <;> simp at h
  | cons a l2 ih =>
    intro pre x post h
    cases pre with
    | nil =>
      simp at h
      exact ⟨[], a, l2, rfl, h.1, rfl, h.2⟩
    | cons pb pre2 =>
      simp at h
      obtain ⟨l3, aa, l4, he, hg, h1, h2⟩ := ih pre2 x post h.2
      exact ⟨a :: l3, aa, l4, by simp [he], hg, by simp [h.1, h1], h2⟩

end RayInt

namespace RayInt

/-- C1: when traceRay returns a point, the scene splits at one object whose
per-object closest-hit query produced exactly that point; its distance from
the ray origin is minimal among all objects' hits (no other hit is closer),
and every object EARLIER in traversal order that produced a hit is strictly
farther — so on exact distance ties the first-encountered hit is kept, the
best point being replaced only on a strictly smaller distance. -/
theorem traceRay_closest {K : Type} [LinearOrderedRing K] (f : DagPath → Bool)
    (mesh : DagPath → MeshResult K) (scene : List DagPath) (o : Point K)
    (dir : ℝ × ℝ × ℝ) (pt : Point K)
    (h : traceRay f mesh scene o dir = Except.ok (some pt)) :
    ∃ pre p post, scene = pre ++ p :: post ∧
      objHit f mesh o p = some (pt, distSq pt o) ∧
      (∀ p2 ∈ pre, ∀ q : Point K × K, objHit f mesh o p2 = some q →
        distSq pt o < q.2) ∧
      (∀ p2 ∈ post, ∀ q : Point K × K, objHit f mesh o p2 = some q →
        distSq pt o ≤ q.2) := by
  unfold traceRay at h
  rcases he : traceGo f mesh o scene none with e | r
  · rw [he] at h
    simp [Except.map] at h
  · rw [he] at h
    simp only [Except.map] at h
    have h2 : Option.map Prod.fst r = some pt := by
      simpa using h
    obtain ⟨pr, hpr, hfst⟩ := Option.map_eq_some'.mp h2
    have hrb := traceGo_ok_runBest f mesh o scene none r he
    rw [hpr] at hrb
    rcases runBest_eq_some (scene.map (objHit f mesh o)) none pr hrb.symm with
      ⟨pre1, x, post1, hsplit, hx, hpre, hpost, _⟩ | ⟨hb, _⟩
    · obtain ⟨l1, a, l2, hl, hg, h1, h2m⟩ := map_split (objHit f mesh o) scene pre1 x post1 hsplit
      have hx2 : objHit f mesh o a = some pr := by rw [hg, hx]
      have hinv := objHit_eq_some f mesh o a pr hx2
      have hd : pr.2 = distSq pt o := by rw [hinv.2.2.2, hfst]
      have hpr2 : pr = (pt, distSq pt o) := by
        rw [← hfst, ← hinv.2.2.2]
      refine ⟨l1, a, l2, hl, by rw [hx2, hpr2], ?_, ?_⟩
      · intro p2 hp2 q hq
        have hy : objHit f mesh o p2 ∈ pre1 := by
          rw [← h1]
          exact List.mem_map_of_mem _ hp2
        have hlt := hpre _ hy q hq
        rwa [hd] at hlt
      · intro p2 hp2 q hq
        have hy : objHit f mesh o p2 ∈ post1 := by
          rw [← h2m]
          exact List.mem_map_of_mem _ hp2
        have hle := hpost _ hy q hq
        rwa [hd] at hle
    · simp at hb

/-- Witness for C1: two visible one-node objects, the first hit at distance
squared 9, the second at 1; traceRay returns the second, nearer hit, and the
split found is at the second object. -/
theorem traceRay_closest_witness :
    traceRay (fun _ => true) meshA [[visNode], [bareNode]] ((0 : ℤ), 0, 0) (0, 0, 0)
      = Except.ok (some (1, 0, 0)) ∧
    (∃ pre p post, ([[visNode], [bareNode]] : List DagPath) = pre ++ p :: post ∧
      objHit (fun _ => true) meshA ((0 : ℤ), 0, 0) p
        = some ((1, 0, 0), distSq ((1 : ℤ), 0, 0) ((0 : ℤ), 0, 0)) ∧
      (∀ p2 ∈ pre, ∀ q : Point ℤ × ℤ,
        objHit (fun _ => true) meshA ((0 : ℤ), 0, 0) p2 = some q →
          distSq ((1 : ℤ), 0, 0) ((0 : ℤ), 0, 0) < q.2) ∧
      (∀ p2 ∈ post, ∀ q : Point ℤ × ℤ,
        objHit (fun _ => true) meshA ((0 : ℤ), 0, 0) p2 = some q →
          distSq ((1 : ℤ), 0, 0) ((0 : ℤ), 0, 0) ≤ q.2)) :=
  ⟨rfl,
    traceRay_closest (fun _ => true) meshA [[visNode], [bareNode]] ((0 : ℤ), 0, 0)
      (0, 0, 0) (1, 0, 0) rfl⟩

end RayInt
